import Mathlib

/-!
Shallow embedding of the DPDP compliance auditor's core matching logic
(`ComplianceAuditor` in `src/ai_ingine.py`, duplicated in `src/app.py`).

The embedding provider (`SentenceTransformer.encode` + `util.cos_sim`) is an
external collaborator: it is modelled as an abstract similarity function
`sim : String → String → ℚ` giving the cosine similarity between a rule text
and a passage text (the provider is deterministic per the spec, so similarity
is a function of the two texts).  Real-valued scores are idealised as
rationals.  `torch.argmax` returns the index of the first occurrence of the
maximum, which `argmaxQ` mirrors.  Python's `round(x, 1)` rounds half to even,
mirrored by `roundHalfEven`.
-/

namespace DPDP

/-- A parsed rule: `{'id': ..., 'text': ...}` in `_load_rules`. -/
structure Rule where
  id : String
  text : String
deriving DecidableEq, Repr

instance : Inhabited Rule := ⟨⟨"", ""⟩⟩

/-- One element of the `audit_results` list built by `audit_policy`. -/
structure AuditItem where
  rule_id : String
  requirement : String
  match_score : ℚ
  status : String
  company_clause : String
deriving DecidableEq, Repr

instance : Inhabited AuditItem := ⟨⟨"", "", 0, "", ""⟩⟩

/-- The state of the rule-source file `dpdp_rules.txt` as seen by `open`:
present with its lines (as produced by iterating over the file object),
absent (`FileNotFoundError`), or unreadable (e.g. `PermissionError`). -/
inductive FileState where
  | present (lines : List String)
  | absent
  | unreadable
deriving DecidableEq, Repr

/-- Python's `s.strip()` (restricted to the ASCII whitespace that
`Char.isWhitespace` covers), on the character list. -/
def pyStrip (l : List Char) : List Char :=
  ((l.dropWhile Char.isWhitespace).reverse.dropWhile Char.isWhitespace).reverse

/-- Python's `line.split(sep, 1)` for a single-character separator, on the
character list: the part before the first occurrence of `c` and the part
after it. -/
def splitFirstOn (c : Char) : List Char → List Char × List Char
  | [] => ([], [])
  | x :: xs =>
    if x = c then ([], xs)
    else
      let r := splitFirstOn c xs
      (x :: r.1, r.2)

/-- Python's `s.split(sep)` for a single-character separator, on the
character list.  `"".split(c) = [""]` and a trailing separator yields a
trailing empty segment, as in Python. -/
def splitOnChar (c : Char) : List Char → List (List Char)
  | [] => [[]]
  | x :: xs =>
    let r := splitOnChar c xs
    if x = c then [] :: r
    else
      match r with
      | [] => [[x]]
      | h :: t => (x :: h) :: t

/-- Body of the loop in `_load_rules`: a line containing `':'` is split on the
first colon and both halves stripped; other lines are skipped. -/
def parseLine (line : String) : Option Rule :=
  if ':' ∈ line.data then
    let p := splitFirstOn ':' line.data
    some ⟨String.mk (pyStrip p.1), String.mk (pyStrip p.2)⟩
  else
    none

/-- Model of `ComplianceAuditor._load_rules`: reads `dpdp_rules.txt` and parses each
line with `parseLine`.  Only `FileNotFoundError` is caught (yielding zero
rules); any other I/O failure propagates, modelled as `Except.error`. -/
def load_rules (fs : FileState) : Except String (List Rule) :=
  match fs with
  | .present lines => .ok (lines.filterMap parseLine)
  | .absent => .ok []
  | .unreadable => .error "PermissionError"

/-- The chunking step of `audit_policy`:
`[p.strip() for p in policy_text.split('\n') if len(p) > 20]`.
Note the length test is applied to the raw segment, before stripping. -/
def policyChunks (policy_text : String) : List String :=
  ((splitOnChar '\n' policy_text.data).filter (fun p => 20 < p.length)).map
    (fun p => String.mk (pyStrip p))

/-- Modelled from the spec's words (§3/§4.1: passages are "non-empty after
trim, length > 20 characters after trimming"): trim each line-break-separated
segment first and keep the segments whose trimmed length exceeds 20.  Defined
only to compare the spec's description of segmentation with `policyChunks`,
which filters on the raw (untrimmed) segment length. -/
def specPolicyChunks (policy_text : String) : List String :=
  ((splitOnChar '\n' policy_text.data).map (fun p => String.mk (pyStrip p))).filter
    (fun c => c ≠ "" ∧ 20 < c.length)

/-- Model of `torch.argmax` over a list of scores: index of the first occurrence of the
maximum (0 on the empty list). -/
def argmaxQ : List ℚ → Nat
  | [] => 0
  | [_] => 0
  | x :: y :: xs =>
    let j := argmaxQ (y :: xs)
    if (y :: xs).getD j 0 > x then j + 1 else 0

/-- Round half to even to the nearest integer, the rounding mode of Python's
builtin `round` (idealising the binary floating-point value as a rational). -/
def roundHalfEven (q : ℚ) : ℤ :=
  let f := ⌊q⌋
  let r := q - (f : ℚ)
  if r < 1/2 then f
  else if 1/2 < r then f + 1
  else if f % 2 = 0 then f else f + 1

/-- Python's `round(q, 1)`. -/
def round1 (q : ℚ) : ℚ := (roundHalfEven (10 * q) : ℚ) / 10

/-- The scores tensor of one loop iteration:
`util.cos_sim(self.rule_embeddings[i], policy_embeddings)[0]`. -/
def ruleScores (sim : String → String → ℚ) (policy_chunks : List String)
    (rule : Rule) : List ℚ :=
  policy_chunks.map (fun chunk => sim rule.text chunk)

/-- The `best_match_idx = scores.argmax().item()` step. -/
def bestIdx (sim : String → String → ℚ) (policy_chunks : List String)
    (rule : Rule) : Nat :=
  argmaxQ (ruleScores sim policy_chunks rule)

/-- The `score = scores[best_match_idx].item()` step. -/
def bestScore (sim : String → String → ℚ) (policy_chunks : List String)
    (rule : Rule) : ℚ :=
  (ruleScores sim policy_chunks rule).getD (bestIdx sim policy_chunks rule) 0

/-- The `matched_text = policy_chunks[best_match_idx]` step. -/
def bestChunk (sim : String → String → ℚ) (policy_chunks : List String)
    (rule : Rule) : String :=
  policy_chunks.getD (bestIdx sim policy_chunks rule) ""

/-- The per-rule loop body of `audit_policy`: scores every chunk against the
rule's embedding, takes the argmax, and builds the result record. -/
def auditRule (sim : String → String → ℚ) (policy_chunks : List String)
    (threshold : ℚ) (rule : Rule) : AuditItem :=
  let score := bestScore sim policy_chunks rule
  let is_compliant := score > threshold
  { rule_id := rule.id
    requirement := rule.text
    match_score := round1 (score * 100)
    status := if is_compliant then "PASS" else "FAIL"
    company_clause :=
      if is_compliant then bestChunk sim policy_chunks rule
      else "No matching clause found." }

/-- Model of `ComplianceAuditor.audit_policy`, with the loaded rules and the embedding
provider passed explicitly (they are fixed at construction time in the
source). -/
def audit_policy (rules : List Rule) (sim : String → String → ℚ)
    (policy_text : String) (threshold : ℚ) : List AuditItem :=
  if policy_text = "" ∨ rules = [] then []
  else
    let policy_chunks := policyChunks policy_text
    if policy_chunks = [] then []
    else rules.map (auditRule sim policy_chunks threshold)

/-- Maximum of a list of scores (0 on the empty list, never used there). -/
def listMaxQ : List ℚ → ℚ
  | [] => 0
  | [x] => x
  | x :: y :: xs => max x (listMaxQ (y :: xs))

/-! ### Properties of `argmaxQ` -/

theorem argmaxQ_lt_length : ∀ (l : List ℚ), l ≠ [] → argmaxQ l < l.length
  | [], h => absurd rfl h
  | [_], _ => Nat.zero_lt_one
  | x :: y :: xs, _ => by
    have ih := argmaxQ_lt_length (y :: xs) (by simp)
    simp only [argmaxQ]
    split
    · exact Nat.succ_lt_succ ih
    · simp

theorem argmaxQ_is_max : ∀ (l : List ℚ) (k : Nat), k < l.length →
    l.getD k 0 ≤ l.getD (argmaxQ l) 0
  | [], k, hk => by simp at hk
  | [x], k, hk => by
    cases k with
    | zero => simp [argmaxQ]
    | succ k => simp at hk
  | x :: y :: xs, k, hk => by
    have ih := fun k hk => argmaxQ_is_max (y :: xs) k hk
    simp only [argmaxQ]
    split
    · rename_i hgt
      cases k with
      | zero => simpa using le_of_lt hgt
      | succ k =>
        simp only [List.getD_cons_succ]
        exact ih k (by simpa using hk)
    · rename_i hle
      push_neg at hle
      cases k with
      | zero => simp
      | succ k =>
        simp only [List.getD_cons_succ, List.getD_cons_zero]
        exact le_trans (ih k (by simpa using hk)) hle

theorem argmaxQ_first : ∀ (l : List ℚ) (k : Nat), k < argmaxQ l →
    l.getD k 0 < l.getD (argmaxQ l) 0
  | [], k, hk => by simp [argmaxQ] at hk
  | [x], k, hk => by simp [argmaxQ] at hk
  | x :: y :: xs, k, hk => by
    have ih := fun k hk => argmaxQ_first (y :: xs) k hk
    simp only [argmaxQ] at hk ⊢
    by_cases hgt : (y :: xs).getD (argmaxQ (y :: xs)) 0 > x
    · rw [if_pos hgt] at hk ⊢
      cases k with
      | zero => simpa using hgt
      | succ k =>
        simp only [List.getD_cons_succ]
        exact ih k (Nat.lt_of_succ_lt_succ hk)
    · rw [if_neg hgt] at hk
      simp at hk

theorem getD_argmaxQ_eq_listMaxQ : ∀ (l : List ℚ), l ≠ [] →
    l.getD (argmaxQ l) 0 = listMaxQ l
  | [], h => absurd rfl h
  | [x], _ => by simp [argmaxQ, listMaxQ]
  | x :: y :: xs, _ => by
    have ih := getD_argmaxQ_eq_listMaxQ (y :: xs) (by simp)
    simp only [argmaxQ, listMaxQ]
    split
    · rename_i hgt
      rw [List.getD_cons_succ, ih]
      exact (max_eq_right (le_of_lt (ih ▸ hgt))).symm
    · rename_i hle
      push_neg at hle
      rw [List.getD_cons_zero]
      exact (max_eq_left (ih ▸ hle)).symm

/-! ### Unfolding lemmas for `audit_policy` -/

theorem policyChunks_empty_string : policyChunks "" = [] := by decide

theorem ne_empty_of_policyChunks_ne_nil {text : String}
    (h : policyChunks text ≠ []) : text ≠ "" := by
  intro he
  rw [he] at h
  exact h policyChunks_empty_string

theorem audit_policy_eq_map (rules : List Rule) (sim : String → String → ℚ)
    (text : String) (t : ℚ) (hr : rules ≠ []) (hc : policyChunks text ≠ []) :
    audit_policy rules sim text t
      = rules.map (auditRule sim (policyChunks text) t) := by
  have ht := ne_empty_of_policyChunks_ne_nil hc
  simp only [audit_policy]
  rw [if_neg (by simp [ht, hr]), if_neg hc]

theorem audit_policy_eq_nil (rules : List Rule) (sim : String → String → ℚ)
    (text : String) (t : ℚ) (h : rules = [] ∨ policyChunks text = []) :
    audit_policy rules sim text t = [] := by
  simp only [audit_policy]
  by_cases hrr : rules = []
  · rw [if_pos (Or.inr hrr)]
  · rcases h with h | h
    · exact absurd h hrr
    · by_cases he : text = ""
      · rw [if_pos (Or.inl he)]
      · rw [if_neg (by simp [he, hrr]), if_pos h]

theorem getD_map_auditItem (f : Rule → AuditItem) (l : List Rule) (i : Nat)
    (h : i < l.length) :
    (l.map f).getD i default = f (l.getD i default) := by
  rw [List.getD_eq_getElem _ _ (by simpa using h), List.getD_eq_getElem _ _ h,
    List.getElem_map]

theorem auditRule_rule_id (sim : String → String → ℚ) (pc : List String)
    (t : ℚ) (r : Rule) : (auditRule sim pc t r).rule_id = r.id := rfl

theorem auditRule_requirement (sim : String → String → ℚ) (pc : List String)
    (t : ℚ) (r : Rule) : (auditRule sim pc t r).requirement = r.text := rfl

theorem auditRule_match_score (sim : String → String → ℚ) (pc : List String)
    (t : ℚ) (r : Rule) :
    (auditRule sim pc t r).match_score = round1 (bestScore sim pc r * 100) := rfl

theorem auditRule_status (sim : String → String → ℚ) (pc : List String)
    (t : ℚ) (r : Rule) :
    (auditRule sim pc t r).status
      = if t < bestScore sim pc r then "PASS" else "FAIL" := rfl

theorem auditRule_clause (sim : String → String → ℚ) (pc : List String)
    (t : ℚ) (r : Rule) :
    (auditRule sim pc t r).company_clause
      = if t < bestScore sim pc r then bestChunk sim pc r
        else "No matching clause found." := rfl

theorem auditRule_status_pass_iff (sim : String → String → ℚ)
    (pc : List String) (t : ℚ) (r : Rule) :
    (auditRule sim pc t r).status = "PASS" ↔ t < bestScore sim pc r := by
  rw [auditRule_status]
  split
  · rename_i h
    exact iff_of_true rfl h
  · rename_i h
    exact iff_of_false (by decide) h

theorem auditRule_status_fail_iff (sim : String → String → ℚ)
    (pc : List String) (t : ℚ) (r : Rule) :
    (auditRule sim pc t r).status = "FAIL" ↔ ¬ t < bestScore sim pc r := by
  rw [auditRule_status]
  split
  · rename_i h
    exact iff_of_false (by decide) (not_not_intro h)
  · rename_i h
    exact iff_of_true rfl h

theorem bestScore_eq_listMaxQ (sim : String → String → ℚ)
    (pc : List String) (r : Rule) (h : pc ≠ []) :
    bestScore sim pc r = listMaxQ (ruleScores sim pc r) := by
  unfold bestScore bestIdx
  exact getD_argmaxQ_eq_listMaxQ _ (by simp [ruleScores, h])

/-! ### Claim theorems -/

/-- Claim C1: every audit call returns exactly one `MatchResult` per loaded
rule, in rule load order, whenever at least one rule is loaded and
segmentation yields at least one qualifying passage; otherwise it returns the
empty sequence, and there is never a partial result set. -/
theorem audit_result_cardinality (rules : List Rule)
    (sim : String → String → ℚ) (text : String) (t : ℚ) :
    (rules ≠ [] → policyChunks text ≠ [] →
      (audit_policy rules sim text t).length = rules.length
      ∧ ∀ i : Nat,
          ((audit_policy rules sim text t).getD i default).rule_id
            = (rules.getD i default).id
          ∧ ((audit_policy rules sim text t).getD i default).requirement
            = (rules.getD i default).text)
    ∧ ((rules = [] ∨ policyChunks text = []) →
        audit_policy rules sim text t = [])
    ∧ ((audit_policy rules sim text t).length = rules.length
        ∨ audit_policy rules sim text t = []) := by
  refine ⟨fun hr hc => ?_, fun h => audit_policy_eq_nil rules sim text t h, ?_⟩
  · rw [audit_policy_eq_map rules sim text t hr hc]
    refine ⟨List.length_map _ _, fun i => ?_⟩
    by_cases hi : i < rules.length
    · rw [getD_map_auditItem _ _ _ hi]
      exact ⟨rfl, rfl⟩
    · push_neg at hi
      rw [List.getD_eq_default _ _ (by simpa using hi),
        List.getD_eq_default _ _ hi]
      exact ⟨rfl, rfl⟩
  · by_cases hr : rules = []
    · exact Or.inr (audit_policy_eq_nil rules sim text t (Or.inl hr))
    · by_cases hc : policyChunks text = []
      · exact Or.inr (audit_policy_eq_nil rules sim text t (Or.inr hc))
      · rw [audit_policy_eq_map rules sim text t hr hc]
        exact Or.inl (List.length_map _ _)

theorem audit_result_cardinality_witness :
    (audit_policy [⟨"R1", "Must provide breach notice within 72 hours."⟩]
      (fun _ _ => 1) "aaaaaaaaaaaaaaaaaaaaaaaaa" 0).length = 1 := by
  have h := (audit_result_cardinality
    [⟨"R1", "Must provide breach notice within 72 hours."⟩]
    (fun _ _ => 1) "aaaaaaaaaaaaaaaaaaaaaaaaa" 0).1 (by decide) (by decide)
  exact h.1

/-- Claim C2: a rule's status is `PASS` iff the maximal similarity over the
passages strictly exceeds the threshold; a best similarity exactly equal to
the threshold yields `FAIL`. -/
theorem audit_pass_iff_max_gt_threshold (rules : List Rule)
    (sim : String → String → ℚ) (text : String) (t : ℚ) (i : Nat)
    (hi : i < rules.length) (hc : policyChunks text ≠ []) :
    (((audit_policy rules sim text t).getD i default).status = "PASS"
      ↔ t < listMaxQ (ruleScores sim (policyChunks text) (rules.getD i default)))
    ∧ (listMaxQ (ruleScores sim (policyChunks text) (rules.getD i default)) = t →
        ((audit_policy rules sim text t).getD i default).status = "FAIL") := by
  have hr : rules ≠ [] := by
    intro h
    rw [h] at hi
    simp at hi
  rw [audit_policy_eq_map rules sim text t hr hc, getD_map_auditItem _ _ _ hi]
  constructor
  · rw [auditRule_status_pass_iff, bestScore_eq_listMaxQ _ _ _ hc]
  · intro heq
    rw [auditRule_status_fail_iff, bestScore_eq_listMaxQ _ _ _ hc, heq]
    exact lt_irrefl t

theorem audit_pass_iff_max_gt_threshold_witness :
    ((audit_policy [⟨"R1", "rule text"⟩] (fun _ _ => 1/2)
        "aaaaaaaaaaaaaaaaaaaaaaaaa" (1/2)).getD 0 default).status = "FAIL" := by
  have h := (audit_pass_iff_max_gt_threshold [⟨"R1", "rule text"⟩]
    (fun _ _ => 1/2) "aaaaaaaaaaaaaaaaaaaaaaaaa" (1/2) 0
    (by decide) (by decide)).2
  exact h (by with_unfolding_all decide)

/-- Claim C8: for fixed rules, document and similarity, per-rule pass/fail is
antitone in the threshold: a rule passing at the higher threshold also passes
at the lower one, and a rule failing at the lower threshold also fails at the
higher one. -/
theorem audit_threshold_monotone (rules : List Rule)
    (sim : String → String → ℚ) (text : String) (t1 t2 : ℚ) (h : t1 ≤ t2) :
    (audit_policy rules sim text t1).length
      = (audit_policy rules sim text t2).length
    ∧ ∀ i : Nat,
      (((audit_policy rules sim text t2).getD i default).status = "PASS" →
        ((audit_policy rules sim text t1).getD i default).status = "PASS")
      ∧ (((audit_policy rules sim text t1).getD i default).status = "FAIL" →
        ((audit_policy rules sim text t2).getD i default).status = "FAIL") := by
  by_cases hr : rules = []
  · rw [audit_policy_eq_nil rules sim text t1 (Or.inl hr),
      audit_policy_eq_nil rules sim text t2 (Or.inl hr)]
    exact ⟨rfl, fun i => ⟨fun hp => hp, fun hf => hf⟩⟩
  · by_cases hc : policyChunks text = []
    · rw [audit_policy_eq_nil rules sim text t1 (Or.inr hc),
        audit_policy_eq_nil rules sim text t2 (Or.inr hc)]
      exact ⟨rfl, fun i => ⟨fun hp => hp, fun hf => hf⟩⟩
    · rw [audit_policy_eq_map rules sim text t1 hr hc,
        audit_policy_eq_map rules sim text t2 hr hc]
      refine ⟨by simp, fun i => ?_⟩
      by_cases hi : i < rules.length
      · rw [getD_map_auditItem _ _ _ hi, getD_map_auditItem _ _ _ hi]
        constructor
        · rw [auditRule_status_pass_iff, auditRule_status_pass_iff]
          exact fun h2 => lt_of_le_of_lt h h2
        · rw [auditRule_status_fail_iff, auditRule_status_fail_iff]
          exact fun h1 h2 => h1 (lt_of_le_of_lt h h2)
      · push_neg at hi
        rw [List.getD_eq_default _ _ (by simpa using hi),
          List.getD_eq_default _ _ (by simpa using hi)]
        exact ⟨fun hp => hp, fun hf => hf⟩

theorem audit_threshold_monotone_witness :
    ((audit_policy [⟨"R1", "rule text"⟩] (fun _ _ => 3/4)
        "aaaaaaaaaaaaaaaaaaaaaaaaa" (1/4)).getD 0 default).status = "PASS" := by
  have h := (audit_threshold_monotone [⟨"R1", "rule text"⟩] (fun _ _ => 3/4)
    "aaaaaaaaaaaaaaaaaaaaaaaaa" (1/4) (1/2)
    (by with_unfolding_all decide)).2 0
  exact h.1 (by with_unfolding_all decide)

/-- Claim C10: the threshold input cannot influence the `rule_id`,
`requirement` or `match_score` fields of any result: two audit runs of the
same rules, similarity and document that differ only in the threshold agree
pairwise on those fields (they can differ only in `status` and
`company_clause`). -/
theorem audit_threshold_noninterference (rules : List Rule)
    (sim : String → String → ℚ) (text : String) (t1 t2 : ℚ) :
    (audit_policy rules sim text t1).length
      = (audit_policy rules sim text t2).length
    ∧ ∀ i : Nat,
      ((audit_policy rules sim text t1).getD i default).rule_id
        = ((audit_policy rules sim text t2).getD i default).rule_id
      ∧ ((audit_policy rules sim text t1).getD i default).requirement
        = ((audit_policy rules sim text t2).getD i default).requirement
      ∧ ((audit_policy rules sim text t1).getD i default).match_score
        = ((audit_policy rules sim text t2).getD i default).match_score := by
  by_cases hr : rules = []
  · rw [audit_policy_eq_nil rules sim text t1 (Or.inl hr),
      audit_policy_eq_nil rules sim text t2 (Or.inl hr)]
    exact ⟨rfl, fun i => ⟨rfl, rfl, rfl⟩⟩
  · by_cases hc : policyChunks text = []
    · rw [audit_policy_eq_nil rules sim text t1 (Or.inr hc),
        audit_policy_eq_nil rules sim text t2 (Or.inr hc)]
      exact ⟨rfl, fun i => ⟨rfl, rfl, rfl⟩⟩
    · rw [audit_policy_eq_map rules sim text t1 hr hc,
        audit_policy_eq_map rules sim text t2 hr hc]
      refine ⟨by simp, fun i => ?_⟩
      by_cases hi : i < rules.length
      · rw [getD_map_auditItem _ _ _ hi, getD_map_auditItem _ _ _ hi]
        exact ⟨rfl, rfl, rfl⟩
      · push_neg at hi
        rw [List.getD_eq_default _ _ (by simpa using hi),
          List.getD_eq_default _ _ (by simpa using hi)]
        exact ⟨rfl, rfl, rfl⟩

/-- Claim C9: the passage selected for a rule is the one at the argmax index,
the argmax index achieves the maximal score, and every strictly earlier
passage has a strictly smaller score — so among passages tying for the exact
maximum, the earliest one in the produced passage sequence is selected. -/
theorem audit_tie_break_stable (rules : List Rule)
    (sim : String → String → ℚ) (text : String) (t : ℚ) (i : Nat)
    (hi : i < rules.length) (hc : policyChunks text ≠ []) :
    (((audit_policy rules sim text t).getD i default).status = "PASS" →
      ((audit_policy rules sim text t).getD i default).company_clause
        = (policyChunks text).getD
            (bestIdx sim (policyChunks text) (rules.getD i default)) "")
    ∧ (∀ k, k < (ruleScores sim (policyChunks text) (rules.getD i default)).length →
        (ruleScores sim (policyChunks text) (rules.getD i default)).getD k 0
          ≤ (ruleScores sim (policyChunks text) (rules.getD i default)).getD
              (bestIdx sim (policyChunks text) (rules.getD i default)) 0)
    ∧ (∀ k, k < bestIdx sim (policyChunks text) (rules.getD i default) →
        (ruleScores sim (policyChunks text) (rules.getD i default)).getD k 0
          < (ruleScores sim (policyChunks text) (rules.getD i default)).getD
              (bestIdx sim (policyChunks text) (rules.getD i default)) 0) := by
  have hr : rules ≠ [] := by
    intro h
    rw [h] at hi
    simp at hi
  refine ⟨fun hp => ?_, fun k hk => argmaxQ_is_max _ k hk,
    fun k hk => argmaxQ_first _ k hk⟩
  rw [audit_policy_eq_map rules sim text t hr hc,
    getD_map_auditItem _ _ _ hi] at hp ⊢
  rw [auditRule_status_pass_iff] at hp
  rw [auditRule_clause, if_pos hp]
  rfl

theorem audit_tie_break_stable_witness :
    ((audit_policy [⟨"R1", "rule text"⟩] (fun _ _ => 1)
        "AAAAAAAAAAAAAAAAAAAAAAAAA\nBBBBBBBBBBBBBBBBBBBBBBBBB"
        (1/2)).getD 0 default).company_clause
      = "AAAAAAAAAAAAAAAAAAAAAAAAA" := by
  have h := (audit_tie_break_stable [⟨"R1", "rule text"⟩] (fun _ _ => 1)
    "AAAAAAAAAAAAAAAAAAAAAAAAA\nBBBBBBBBBBBBBBBBBBBBBBBBB" (1/2) 0
    (by decide) (by decide)).1 (by with_unfolding_all decide)
  rw [h]
  with_unfolding_all decide

/-- Claim C3 counterexample: a document whose only qualifying passage is the
string "No matching clause found." itself makes a failing rule's
`company_clause` equal to a passage's text, refuting the "never any passage's
text" part of the claim. -/
theorem audit_fail_sentinel_counterexample :
    ((audit_policy [⟨"R1", "rule text"⟩] (fun _ _ => 0)
        "No matching clause found." (1/2)).getD 0 default).status = "FAIL"
    ∧ ((audit_policy [⟨"R1", "rule text"⟩] (fun _ _ => 0)
        "No matching clause found." (1/2)).getD 0 default).company_clause
        ∈ policyChunks "No matching clause found." := by
  with_unfolding_all decide

/-- Claim C3 (amended): a failing rule's `company_clause` is the fixed
sentinel string "No matching clause found." — so it can coincide with a
passage's text only when the document itself contains the sentinel as a
passage — and a passing rule's `company_clause` is the best-matching
passage's text. -/
theorem audit_fail_sentinel (rules : List Rule)
    (sim : String → String → ℚ) (text : String) (t : ℚ) (i : Nat)
    (hi : i < rules.length) (hc : policyChunks text ≠ []) :
    (((audit_policy rules sim text t).getD i default).status = "FAIL" →
      ((audit_policy rules sim text t).getD i default).company_clause
        = "No matching clause found.")
    ∧ (((audit_policy rules sim text t).getD i default).status = "PASS" →
      ((audit_policy rules sim text t).getD i default).company_clause
        = bestChunk sim (policyChunks text) (rules.getD i default))
    ∧ ("No matching clause found." ∉ policyChunks text →
        ((audit_policy rules sim text t).getD i default).status = "FAIL" →
        ((audit_policy rules sim text t).getD i default).company_clause
          ∉ policyChunks text) := by
  have hr : rules ≠ [] := by
    intro h
    rw [h] at hi
    simp at hi
  rw [audit_policy_eq_map rules sim text t hr hc, getD_map_auditItem _ _ _ hi]
  refine ⟨fun hf => ?_, fun hp => ?_, fun hs hf => ?_⟩
  · rw [auditRule_status_fail_iff] at hf
    rw [auditRule_clause, if_neg hf]
  · rw [auditRule_status_pass_iff] at hp
    rw [auditRule_clause, if_pos hp]
  · rw [auditRule_status_fail_iff] at hf
    rw [auditRule_clause, if_neg hf]
    exact hs

theorem audit_fail_sentinel_witness :
    ((audit_policy [⟨"R1", "rule text"⟩] (fun _ _ => 0)
        "aaaaaaaaaaaaaaaaaaaaaaaaa" (1/2)).getD 0 default).company_clause
      = "No matching clause found." := by
  have h := (audit_fail_sentinel [⟨"R1", "rule text"⟩] (fun _ _ => 0)
    "aaaaaaaaaaaaaaaaaaaaaaaaa" (1/2) 0 (by decide) (by decide)).1
  exact h (by with_unfolding_all decide)

/-- Claim C4 counterexample: on a document consisting of one segment of 21
spaces, the code keeps the segment (its raw length exceeds 20) and emits the
empty passage, while segmentation as the claim describes it (filter on the
trimmed length) would discard it — so the produced sequence is not the
claimed one, and a produced passage is empty with trimmed length ≤ 20. -/
theorem policyChunks_counterexample :
    policyChunks "                     " = [""]
    ∧ specPolicyChunks "                     " = []
    ∧ policyChunks "                     "
        ≠ specPolicyChunks "                     " := by
  decide

/-- Claim C4 (amended): segmentation keeps exactly the line-break-separated
segments whose raw, untrimmed length strictly exceeds 20 characters, and
each produced passage is the trimmed text of such a segment (which may
itself be empty or have trimmed length ≤ 20). -/
theorem policyChunks_raw_length_filter (text : String) :
    (∀ c ∈ policyChunks text, ∃ p, p ∈ splitOnChar '\n' text.data
        ∧ 20 < p.length ∧ c = String.mk (pyStrip p))
    ∧ (∀ p, p ∈ splitOnChar '\n' text.data → 20 < p.length →
        String.mk (pyStrip p) ∈ policyChunks text) := by
  constructor
  · intro c hcmem
    unfold policyChunks at hcmem
    rw [List.mem_map] at hcmem
    obtain ⟨p, hp, rfl⟩ := hcmem
    rw [List.mem_filter] at hp
    exact ⟨p, hp.1, by simpa using hp.2, rfl⟩
  · intro p hp hlen
    unfold policyChunks
    rw [List.mem_map]
    exact ⟨p, List.mem_filter.mpr ⟨hp, by simpa using hlen⟩, rfl⟩

theorem policyChunks_raw_length_filter_witness :
    ("abc" : String) ∈ policyChunks "abc                   " := by
  have h := (policyChunks_raw_length_filter "abc                   ").2
    "abc                   ".data (by decide) (by decide)
  have h2 : String.mk (pyStrip "abc                   ".data) = "abc" := by
    decide
  rw [h2] at h
  exact h

/-- Claim C5 counterexample: an unreadable (as opposed to absent) rule
source is not handled — only `FileNotFoundError` is caught — so matcher
construction propagates the error instead of completing with zero rules. -/
theorem load_rules_unreadable_counterexample :
    load_rules FileState.unreadable = Except.error "PermissionError"
    ∧ ¬ ∃ rs : List Rule, load_rules FileState.unreadable = Except.ok rs := by
  refine ⟨rfl, ?_⟩
  rintro ⟨rs, h⟩
  simp [load_rules] at h

/-- Claim C5 (amended): when the rule-source file is absent, matcher
construction completes without raising and holds zero rules, and every
subsequent audit call returns the empty result sequence; an unreadable file
is not covered (only `FileNotFoundError` is caught). -/
theorem load_rules_absent_inert :
    load_rules FileState.absent = Except.ok []
    ∧ ∀ (sim : String → String → ℚ) (text : String) (t : ℚ),
        audit_policy [] sim text t = [] :=
  ⟨rfl, fun sim text t => audit_policy_eq_nil [] sim text t (Or.inl rfl)⟩

/-- Claim C7 counterexample: a rule line whose identifier part is empty
(here ":hello") is accepted by `_load_rules`, producing a rule whose
identifier is the empty string — refuting the claim that loaded rules always
have non-empty trimmed identifier and text. -/
theorem load_rules_nonempty_counterexample :
    load_rules (FileState.present [":hello"])
      = Except.ok [{ id := "", text := "hello" }] := rfl

/-- Claim C7 (amended): every rule held by a constructed matcher comes from
an input line containing the separator, with identifier and text obtained by
splitting that line on its first colon and trimming both halves; either half
may be empty, since no non-emptiness check is performed. -/
theorem load_rules_shape (lines : List String) (rs : List Rule)
    (h : load_rules (FileState.present lines) = Except.ok rs) :
    ∀ r ∈ rs, ∃ line ∈ lines, ':' ∈ line.data
      ∧ r.id = String.mk (pyStrip (splitFirstOn ':' line.data).1)
      ∧ r.text = String.mk (pyStrip (splitFirstOn ':' line.data).2) := by
  have hrs : lines.filterMap parseLine = rs := by
    simpa [load_rules] using h
  subst hrs
  intro r hr
  rw [List.mem_filterMap] at hr
  obtain ⟨line, hline, hparse⟩ := hr
  refine ⟨line, hline, ?_⟩
  unfold parseLine at hparse
  by_cases hcol : ':' ∈ line.data
  · rw [if_pos hcol] at hparse
    obtain rfl := Option.some.inj hparse
    exact ⟨hcol, rfl, rfl⟩
  · rw [if_neg hcol] at hparse
    exact absurd hparse (by simp)

theorem load_rules_shape_witness :
    ∃ line ∈ ["R1: breach notice"], ':' ∈ line.data
      ∧ ("R1" : String) = String.mk (pyStrip (splitFirstOn ':' line.data).1)
      ∧ ("breach notice" : String)
          = String.mk (pyStrip (splitFirstOn ':' line.data).2) := by
  have h := load_rules_shape ["R1: breach notice"]
    [⟨"R1", "breach notice"⟩] rfl ⟨"R1", "breach notice"⟩ (by decide)
  exact h

/-! ### Bounds on the rounded score -/

theorem roundHalfEven_le {q : ℚ} {n : ℤ} (h : q ≤ (n : ℚ)) :
    roundHalfEven q ≤ n := by
  have hf : ⌊q⌋ ≤ n := le_of_le_of_eq (Int.floor_le_floor h) (Int.floor_intCast n)
  have hstep : ¬(q - (⌊q⌋ : ℚ) < 1/2) → ⌊q⌋ + 1 ≤ n := by
    intro h1
    push_neg at h1
    have hlt : ((⌊q⌋ : ℤ) : ℚ) < (n : ℚ) := by linarith
    have : ⌊q⌋ < n := by exact_mod_cast hlt
    omega
  simp only [roundHalfEven]
  split
  · exact hf
  · rename_i h1
    split
    · exact hstep h1
    · split
      · exact hf
      · exact hstep h1

theorem le_roundHalfEven {q : ℚ} {n : ℤ} (h : (n : ℚ) ≤ q) :
    n ≤ roundHalfEven q := by
  have hf : n ≤ ⌊q⌋ := Int.le_floor.mpr h
  simp only [roundHalfEven]
  split
  · exact hf
  · split
    · omega
    · split
      · exact hf
      · omega

theorem round1_bounds {q : ℚ} (h1 : -100 ≤ q) (h2 : q ≤ 100) :
    -100 ≤ round1 q ∧ round1 q ≤ 100 := by
  have hle : roundHalfEven (10 * q) ≤ 1000 :=
    roundHalfEven_le (by push_cast; linarith)
  have hge : (-1000 : ℤ) ≤ roundHalfEven (10 * q) :=
    le_roundHalfEven (by push_cast; linarith)
  unfold round1
  constructor
  · rw [le_div_iff₀ (by norm_num : (0:ℚ) < 10)]
    have : ((-1000 : ℤ) : ℚ) ≤ (roundHalfEven (10 * q) : ℚ) := by
      exact_mod_cast hge
    push_cast at this ⊢
    linarith
  · rw [div_le_iff₀ (by norm_num : (0:ℚ) < 10)]
    have : ((roundHalfEven (10 * q) : ℤ) : ℚ) ≤ ((1000 : ℤ) : ℚ) := by
      exact_mod_cast hle
    push_cast at this ⊢
    linarith

/-- Claim C6 counterexample: a legal cosine similarity of −1 (the provider's
contract allows any value in [−1, 1]) produces a negative `match_score`, so
the score does not always lie in [0, 100]. -/
theorem audit_match_score_counterexample :
    ((audit_policy [⟨"R1", "rule text"⟩] (fun _ _ => -1)
        "aaaaaaaaaaaaaaaaaaaaaaaaa" (1/2)).getD 0 default).match_score
      = -100
    ∧ ((audit_policy [⟨"R1", "rule text"⟩] (fun _ _ => -1)
        "aaaaaaaaaaaaaaaaaaaaaaaaa" (1/2)).getD 0 default).match_score < 0 := by
  with_unfolding_all decide

/-- Claim C6 (amended): every result's `match_score` equals the raw best
similarity scaled by 100 and rounded to one decimal place (round half to
even), and — since cosine similarity lies in [−1, 1] — it lies in the
interval [−100, 100] (not [0, 100]). -/
theorem audit_match_score_formula_and_bounds (rules : List Rule)
    (sim : String → String → ℚ) (text : String) (t : ℚ)
    (hsim : ∀ r c, -1 ≤ sim r c ∧ sim r c ≤ 1) (i : Nat)
    (hi : i < rules.length) (hc : policyChunks text ≠ []) :
    ((audit_policy rules sim text t).getD i default).match_score
      = round1 (bestScore sim (policyChunks text) (rules.getD i default) * 100)
    ∧ -100 ≤ ((audit_policy rules sim text t).getD i default).match_score
    ∧ ((audit_policy rules sim text t).getD i default).match_score ≤ 100 := by
  have hr : rules ≠ [] := by
    intro h
    rw [h] at hi
    simp at hi
  rw [audit_policy_eq_map rules sim text t hr hc,
    getD_map_auditItem _ _ _ hi, auditRule_match_score]
  refine ⟨rfl, ?_⟩
  have hne : ruleScores sim (policyChunks text) (rules.getD i default) ≠ [] := by
    simp [ruleScores, hc]
  have hmem : bestScore sim (policyChunks text) (rules.getD i default)
      ∈ ruleScores sim (policyChunks text) (rules.getD i default) := by
    unfold bestScore bestIdx
    rw [List.getD_eq_getElem _ _ (argmaxQ_lt_length _ hne)]
    exact List.getElem_mem _
  simp only [ruleScores, List.mem_map] at hmem
  obtain ⟨c, _, hceq⟩ := hmem
  obtain ⟨hb1, hb2⟩ := hsim (rules.getD i default).text c
  rw [hceq] at hb1 hb2
  exact round1_bounds (by linarith) (by linarith)

theorem audit_match_score_bounds_witness :
    -100 ≤ ((audit_policy [⟨"R1", "rule text"⟩] (fun _ _ => 1/2)
        "aaaaaaaaaaaaaaaaaaaaaaaaa" (1/4)).getD 0 default).match_score
    ∧ ((audit_policy [⟨"R1", "rule text"⟩] (fun _ _ => 1/2)
        "aaaaaaaaaaaaaaaaaaaaaaaaa" (1/4)).getD 0 default).match_score ≤ 100 := by
  have h := audit_match_score_formula_and_bounds [⟨"R1", "rule text"⟩]
    (fun _ _ => 1/2) "aaaaaaaaaaaaaaaaaaaaaaaaa" (1/4)
    (fun r c => ⟨by norm_num, by norm_num⟩) 0 (by decide) (by decide)
  exact ⟨h.2.1, h.2.2⟩

end DPDP
